import Mathlib

/-!
# Verification of the session-derivation pipeline of ghcpCliDashboard

Shallow embedding of the pure client-side logic of the dashboard:

* `src/frontend/src/utils/helpers.ts` — `groupSessions`, `filterSessions`,
  `splitActivePrevious`, `sortStarredFirst`;
* `src/frontend/src/hooks/useVersion.ts` — the version-check step and the
  update-readiness polling loop;
* `src/frontend/src/components/DisconnectOverlay.tsx` — the disconnect
  overlay's retry-line rendering.

JavaScript strings are modelled as `List Char` (`Str`), JS objects used as
string-keyed maps as `Str → Option _` lookups, and the (ES2019-mandated)
stability of `Array.sort` as a stable insertion sort driven by the numeric
comparator from the source.  `Object.entries` enumeration follows ECMA-262
OrdinaryOwnPropertyKeys: own keys that are array-index strings come first
in ascending numeric order, the remaining string keys follow in property
creation (insertion) order — see `jsObjectEntries`.
`Date` parsing is a parameter `parseTime : Str → Option Int` where `none`
stands for `NaN` (every `NaN` comparison is false, hence the `Option` match).
-/

/-- JS strings, modelled as lists of characters. -/
abbrev Str := List Char

/-- A session record, after `src/frontend/src/types` as exercised by the
test factory `makeSession` in `src/frontend/src/test`: nullable string
fields are `Option Str`, counters are `Nat`. -/
structure Session where
  id : Str
  cwd : Option Str
  repository : Option Str
  branch : Option Str
  summary : Option Str
  created_at : Str
  updated_at : Str
  created_ago : Str
  time_ago : Str
  turn_count : Nat
  file_count : Nat
  checkpoint_count : Nat
  is_running : Bool
  state : Option Str
  waiting_context : Str
  bg_tasks : Nat
  group : Option Str
  recent_activity : Option Str
  restart_cmd : Str
  mcp_servers : List Str
  tool_calls : Nat
  subagent_runs : Nat
  intent : Str
  deriving Repr, DecidableEq

/-- A live process record, after the `makeProcess` test factory. -/
structure ProcessInfo where
  pid : Nat
  parent_pid : Nat
  terminal_pid : Nat
  terminal_name : Str
  cmdline : Str
  yolo : Bool
  state : Str
  waiting_context : Str
  bg_tasks : Nat
  mcp_servers : List Str
  deriving Repr, DecidableEq

/-- `{current, latest, update_available}` from `useVersion.ts`. -/
structure VersionInfo where
  current : Str
  latest : Option Str
  update_available : Bool
  deriving Repr, DecidableEq

/-! ## Generic JS `Array.prototype.sort` (stable, numeric comparator) -/

/-- Insert `x` before the first element `y` with `cmp x y ≤ 0`.  Combined
with `stableSortCmp` below this realises a stable sort for a numeric JS
comparator: `x` ends up before `y` exactly when `cmp x y < 0`, or when
`cmp x y = 0` and `x` came earlier in the input. -/
def insertCmp (cmp : α → α → Int) (x : α) : List α → List α
  | [] => [x]
  | y :: ys => if cmp x y ≤ 0 then x :: y :: ys else y :: insertCmp cmp x ys

/-- Stable sort with a JS-style numeric comparator (ES2019 `Array.sort` is
required to be stable). -/
def stableSortCmp (cmp : α → α → Int) (l : List α) : List α :=
  l.foldr (insertCmp cmp) []

/-! ## `filterSessions` (helpers.ts lines 77–98) -/

/-- `needle.isPrefixOf hay` in JS terms: does `hay` start with `needle`? -/
def leadsWith : Str → Str → Bool
  | [], _ => true
  | _ :: _, [] => false
  | a :: n, b :: h => a == b && leadsWith n h

/-- JS `hay.includes(needle)`: substring containment. -/
def containsSub (hay needle : Str) : Bool :=
  leadsWith needle hay ||
    match hay with
    | [] => false
    | _ :: t => containsSub t needle

/-- JS `Array.prototype.join(sep)`. -/
def joinWith (sep : Str) : List Str → Str
  | [] => []
  | [x] => x
  | x :: y :: xs => x ++ sep ++ joinWith sep (y :: xs)

/-- The searchable haystack of a session: the non-empty fields among
summary, repository, branch, cwd, group, intent and the MCP server names,
joined with a single space and lowercased (helpers.ts lines 84–95). -/
def sessionHay (s : Session) : Str :=
  (joinWith [' ']
      ((([s.summary, s.repository, s.branch, s.cwd, s.group,
          some s.intent].filterMap id) ++ s.mcp_servers).filter
        (fun f => !f.isEmpty))).map Char.toLower

/-- `filterSessions` (helpers.ts lines 77–98): identity on the empty
query, otherwise keep sessions whose haystack contains the lowercased
query. -/
def filterSessions (sessions : List Session) (filter : Str) : List Session :=
  if filter.isEmpty then sessions
  else
    sessions.filter (fun s => containsSub (sessionHay s) (filter.map Char.toLower))

/-- C3: `filterSessions sessions ""` is the input list itself. -/
theorem filterSessions_empty_query (sessions : List Session) :
    filterSessions sessions [] = sessions := rfl

/-! ## `splitActivePrevious` (helpers.ts lines 104–120) -/

/-- The `{active, previous}` result object of `splitActivePrevious`. -/
structure SplitResult where
  active : List Session
  previous : List Session
  deriving Repr, DecidableEq

/-- JS truthiness of `processes[s.id]`: the map has an entry for the id. -/
def sessionIsActive (processes : Str → Option ProcessInfo) (s : Session) : Bool :=
  (processes s.id).isSome

/-- `new Date(s.updated_at).getTime() >= fiveDaysAgo`.  `parseTime` returning
`none` models an unparseable date (`NaN`), and every comparison against `NaN`
is false. -/
def sessionIsRecent (parseTime : Str → Option Int) (fiveDaysAgo : Int)
    (s : Session) : Bool :=
  match parseTime s.updated_at with
  | some t => decide (fiveDaysAgo ≤ t)
  | none => false

/-- `splitActivePrevious` (helpers.ts lines 104–120): push each session to
`active` when the process map has an entry for its id, otherwise to
`previous` when its `updated_at` is within the last five days, otherwise
drop it. -/
def splitActivePrevious (sessions : List Session)
    (processes : Str → Option ProcessInfo)
    (parseTime : Str → Option Int) (now : Int) : SplitResult :=
  sessions.foldl
    (fun acc s =>
      if sessionIsActive processes s then
        { acc with active := acc.active ++ [s] }
      else if sessionIsRecent parseTime (now - 5 * 24 * 60 * 60 * 1000) s then
        { acc with previous := acc.previous ++ [s] }
      else acc)
    ⟨[], []⟩

theorem splitActivePrevious_fold (processes : Str → Option ProcessInfo)
    (parseTime : Str → Option Int) (fda : Int) :
    ∀ (sessions : List Session) (a p : List Session),
      sessions.foldl
        (fun (acc : SplitResult) s =>
          if sessionIsActive processes s then
            { acc with active := acc.active ++ [s] }
          else if sessionIsRecent parseTime fda s then
            { acc with previous := acc.previous ++ [s] }
          else acc)
        ⟨a, p⟩ =
      (⟨a ++ sessions.filter (fun s => sessionIsActive processes s),
        p ++ sessions.filter (fun s => !sessionIsActive processes s &&
              sessionIsRecent parseTime fda s)⟩ :
        SplitResult) := by
  intro sessions
  induction sessions with
  | nil => intro a p; simp
  | cons s rest ih =>
    intro a p
    by_cases hact : sessionIsActive processes s
    · simp [List.foldl_cons, hact, ih, List.filter_cons]
    · by_cases hrec : sessionIsRecent parseTime fda s
      · simp [List.foldl_cons, hact, hrec, ih, List.filter_cons]
      · simp [List.foldl_cons, hact, hrec, ih, List.filter_cons]

/-- `splitActivePrevious` is, extensionally, a pair of filters of the input:
`active` keeps exactly the sessions with a process-map entry, `previous`
keeps exactly the entry-less sessions whose timestamp passes the five-day
recency check. -/
theorem splitActivePrevious_eq_filters (sessions : List Session)
    (processes : Str → Option ProcessInfo)
    (parseTime : Str → Option Int) (now : Int) :
    splitActivePrevious sessions processes parseTime now =
      ⟨sessions.filter (fun s => sessionIsActive processes s),
       sessions.filter (fun s => !sessionIsActive processes s &&
          sessionIsRecent parseTime (now - 5 * 24 * 60 * 60 * 1000) s)⟩ := by
  simpa using splitActivePrevious_fold processes parseTime
    (now - 5 * 24 * 60 * 60 * 1000) sessions [] []

/-- C1: a session is in `active` iff it is in the input and the process map
has an entry under its id, regardless of timestamps; a session with such an
entry never appears in `previous`. -/
theorem splitActivePrevious_active_iff (sessions : List Session)
    (processes : Str → Option ProcessInfo)
    (parseTime : Str → Option Int) (now : Int) (s : Session) :
    (s ∈ (splitActivePrevious sessions processes parseTime now).active ↔
      s ∈ sessions ∧ (processes s.id).isSome) ∧
    ((processes s.id).isSome →
      s ∉ (splitActivePrevious sessions processes parseTime now).previous) := by
  rw [splitActivePrevious_eq_filters]
  constructor
  · simp [List.mem_filter, sessionIsActive]
  · intro hsome hmem
    rcases (List.mem_filter.mp hmem) with ⟨-, hcond⟩
    simp [sessionIsActive, hsome] at hcond

/-- A concrete session, mirroring the `makeSession` test factory. -/
def testSession : Session where
  id := "test-id".data
  cwd := none
  repository := none
  branch := none
  summary := some "Test session".data
  created_at := "2026-01-01T00:00:00Z".data
  updated_at := "2026-01-01T01:00:00Z".data
  created_ago := "1 hour ago".data
  time_ago := "1 hour ago".data
  turn_count := 5
  file_count := 3
  checkpoint_count := 1
  is_running := false
  state := none
  waiting_context := []
  bg_tasks := 0
  group := some "General".data
  recent_activity := none
  restart_cmd := "copilot".data
  mcp_servers := []
  tool_calls := 10
  subagent_runs := 2
  intent := []

/-- A concrete process record, mirroring the `makeProcess` test factory. -/
def testProcess : ProcessInfo where
  pid := 100
  parent_pid := 0
  terminal_pid := 0
  terminal_name := []
  cmdline := []
  yolo := false
  state := "working".data
  waiting_context := []
  bg_tasks := 0
  mcp_servers := []

/-- Witness for C1 at a concrete session and process map. -/
theorem splitActivePrevious_active_iff_witness :
    (testSession ∈ (splitActivePrevious [testSession] (fun _ => some testProcess)
        (fun _ => none) 0).active ↔
      testSession ∈ [testSession] ∧
        ((fun (_ : Str) => some testProcess) testSession.id).isSome) ∧
    (((fun (_ : Str) => some testProcess) testSession.id).isSome →
      testSession ∉ (splitActivePrevious [testSession] (fun _ => some testProcess)
        (fun _ => none) 0).previous) :=
  splitActivePrevious_active_iff [testSession] (fun _ => some testProcess)
    (fun _ => none) 0 testSession

/-- C4: a session with no process-map entry whose `updated_at` is older than
five days or unparseable (`NaN`, failing the `>=` check) lands in neither
output list. -/
theorem splitActivePrevious_drops_stale (sessions : List Session)
    (processes : Str → Option ProcessInfo)
    (parseTime : Str → Option Int) (now : Int) (s : Session)
    (hproc : processes s.id = none)
    (hold : ∀ t, parseTime s.updated_at = some t →
      t < now - 5 * 24 * 60 * 60 * 1000) :
    s ∉ (splitActivePrevious sessions processes parseTime now).active ∧
    s ∉ (splitActivePrevious sessions processes parseTime now).previous := by
  rw [splitActivePrevious_eq_filters]
  constructor
  · intro hmem
    rcases (List.mem_filter.mp hmem) with ⟨-, hcond⟩
    simp [sessionIsActive, hproc] at hcond
  · intro hmem
    rcases (List.mem_filter.mp hmem) with ⟨-, hcond⟩
    rcases Bool.and_eq_true _ _ |>.mp hcond with ⟨-, hrec⟩
    unfold sessionIsRecent at hrec
    cases hpt : parseTime s.updated_at with
    | none => rw [hpt] at hrec; exact Bool.noConfusion hrec
    | some t =>
      rw [hpt] at hrec
      exact absurd (of_decide_eq_true hrec) (not_le.mpr (hold t hpt))

/-- Witness for C4: an entry-less session with an unparseable timestamp is
dropped from both lists. -/
theorem splitActivePrevious_drops_stale_witness :
    testSession ∉ (splitActivePrevious [testSession] (fun _ => none)
      (fun _ => none) 0).active ∧
    testSession ∉ (splitActivePrevious [testSession] (fun _ => none)
      (fun _ => none) 0).previous :=
  splitActivePrevious_drops_stale [testSession] (fun _ => none) (fun _ => none) 0
    testSession rfl (fun _ h => Option.noConfusion h)

/-! ## `groupSessions` (helpers.ts lines 62–71) -/

/-- The default group bucket. -/
def generalGroup : Str := "General".data

/-- `s.group || "General"`: JS falsy (`null` or the empty string) falls back
to the default bucket. -/
def sessionGroupKey (s : Session) : Str :=
  match s.group with
  | some g => if g.isEmpty then generalGroup else g
  | none => generalGroup

/-- `(groups[g] ??= []).push(s)`: append `s` to the existing entry for `k`,
or create a new `(k, [s])` entry.  The association list records property
*creation* order (new keys at the end); enumeration order is applied
separately by `jsObjectEntries`. -/
def addToGroups (groups : List (Str × List Session)) (k : Str) (s : Session) :
    List (Str × List Session) :=
  match groups with
  | [] => [(k, [s])]
  | (k', ss) :: rest =>
      if k' = k then (k', ss ++ [s]) :: rest
      else (k', ss) :: addToGroups rest k s

/-- The record built by the loop in `groupSessions`, as an association list
in property creation order. -/
def groupEntries (sessions : List Session) : List (Str × List Session) :=
  sessions.foldl (fun gs s => addToGroups gs (sessionGroupKey s) s) []

/-- The numeric value of a decimal digit string. -/
def strToNat (s : Str) : Nat :=
  s.foldl (fun acc c => acc * 10 + (c.toNat - '0'.toNat)) 0

/-- ECMA-262 array-index string: a canonical decimal numeral (digits only,
no leading zero except `"0"` itself) whose value is below `2^32 - 1`. -/
def isArrayIndex (s : Str) : Bool :=
  match s with
  | [] => false
  | c :: rest =>
      (c :: rest).all Char.isDigit &&
        (c != '0' || rest.isEmpty) &&
        decide (strToNat (c :: rest) < 4294967295)

/-- `Object.entries` over a record held as a creation-ordered association
list, in ECMA-262 OrdinaryOwnPropertyKeys order: entries whose key is an
array-index string first, in ascending numeric order, then the remaining
entries in creation order. -/
def jsObjectEntries (l : List (Str × β)) : List (Str × β) :=
  stableSortCmp (fun a b => (strToNat a.1 : Int) - (strToNat b.1 : Int))
    (l.filter (fun e => isArrayIndex e.1)) ++
    l.filter (fun e => !isArrayIndex e.1)

/-- `groupSessions` (helpers.ts lines 62–71): group by the `group` field
(defaulting to `"General"`), then `Object.entries(groups).sort((a, b) =>
b[1].length - a[1].length)`, with `Object.entries` enumerating in ECMA-262
key order. -/
def groupSessions (sessions : List Session) : List (Str × List Session) :=
  stableSortCmp (fun a b => (b.2.length : Int) - (a.2.length : Int))
    (jsObjectEntries (groupEntries sessions))

/-- The group keys in the order in which they are first encountered in the
input. -/
def firstSeenKeys (sessions : List Session) : List Str :=
  sessions.foldl
    (fun acc s => if sessionGroupKey s ∈ acc then acc else acc ++ [sessionGroupKey s])
    []

theorem insertCmp_mem (cmp : α → α → Int) (x : α) (l : List α) (w : α) :
    w ∈ insertCmp cmp x l ↔ w = x ∨ w ∈ l := by
  induction l with
  | nil => simp [insertCmp]
  | cons y ys ih =>
    by_cases h : cmp x y ≤ 0
    · simp only [insertCmp, if_pos h, List.mem_cons]
    · simp only [insertCmp, if_neg h, List.mem_cons, ih]
      tauto

theorem insertCmp_pairwise (cmp : α → α → Int) (R : α → α → Prop)
    (hcmp : ∀ a b, cmp a b ≤ 0 ↔ R a b)
    (htot : ∀ a b, R a b ∨ R b a)
    (htr : ∀ a b c, R a b → R b c → R a c)
    (x : α) : ∀ l : List α, l.Pairwise R → (insertCmp cmp x l).Pairwise R := by
  intro l
  induction l with
  | nil => intro _; simp [insertCmp]
  | cons y ys ih =>
    intro h
    rcases List.pairwise_cons.mp h with ⟨hy, hys⟩
    by_cases hc : cmp x y ≤ 0
    · show (if cmp x y ≤ 0 then x :: y :: ys else y :: insertCmp cmp x ys).Pairwise R
      rw [if_pos hc]
      refine List.pairwise_cons.mpr ⟨?_, h⟩
      intro w hw
      rcases List.mem_cons.mp hw with rfl | hw'
      · exact (hcmp x w).mp hc
      · exact htr x y w ((hcmp x y).mp hc) (hy w hw')
    · show (if cmp x y ≤ 0 then x :: y :: ys else y :: insertCmp cmp x ys).Pairwise R
      rw [if_neg hc]
      refine List.pairwise_cons.mpr ⟨?_, ih hys⟩
      intro w hw
      rcases (insertCmp_mem cmp x ys w).mp hw with rfl | hw'
      · rcases htot y w with h1 | h1
        · exact h1
        · exact absurd ((hcmp w y).mpr h1) hc
      · exact hy w hw'

theorem stableSortCmp_pairwise (cmp : α → α → Int) (R : α → α → Prop)
    (hcmp : ∀ a b, cmp a b ≤ 0 ↔ R a b)
    (htot : ∀ a b, R a b ∨ R b a)
    (htr : ∀ a b c, R a b → R b c → R a c)
    (l : List α) : (stableSortCmp cmp l).Pairwise R := by
  induction l with
  | nil => simp [stableSortCmp]
  | cons x xs ih => exact insertCmp_pairwise cmp R hcmp htot htr x _ ih

theorem insertCmp_filter (cmp : α → α → Int) (pred : α → Bool) (x : α)
    (hdrop : pred x = true → ∀ y, 0 < cmp x y → pred y = false) :
    ∀ l : List α, (insertCmp cmp x l).filter pred =
      if pred x then x :: l.filter pred else l.filter pred := by
  intro l
  induction l with
  | nil =>
    by_cases hx : pred x
    · simp [insertCmp, List.filter, hx]
    · simp [insertCmp, List.filter, hx]
  | cons y ys ih =>
    show ((if cmp x y ≤ 0 then x :: y :: ys else y :: insertCmp cmp x ys).filter pred) = _
    by_cases hc : cmp x y ≤ 0
    · rw [if_pos hc]
      by_cases hx : pred x
      · simp [List.filter_cons, hx]
      · simp [List.filter_cons, hx]
    · rw [if_neg hc]
      by_cases hx : pred x
      · have hy : pred y = false := hdrop hx y (lt_of_not_le hc)
        simp [List.filter_cons, hy, ih, hx]
      · by_cases hy : pred y
        · simp [List.filter_cons, hy, ih, hx]
        · simp [List.filter_cons, hy, ih, hx]

theorem stableSortCmp_filter (cmp : α → α → Int) (pred : α → Bool)
    (hdrop : ∀ x, pred x = true → ∀ y, 0 < cmp x y → pred y = false)
    (l : List α) : (stableSortCmp cmp l).filter pred = l.filter pred := by
  induction l with
  | nil => rfl
  | cons x xs ih =>
    show (insertCmp cmp x (stableSortCmp cmp xs)).filter pred = _
    rw [insertCmp_filter cmp pred x (hdrop x) (stableSortCmp cmp xs), ih]
    by_cases hx : pred x
    · simp [List.filter_cons, hx]
    · simp [List.filter_cons, hx]

theorem addToGroups_map_fst (k : Str) (s : Session) :
    ∀ gs : List (Str × List Session),
      (addToGroups gs k s).map Prod.fst =
        if k ∈ gs.map Prod.fst then gs.map Prod.fst
        else gs.map Prod.fst ++ [k] := by
  intro gs
  induction gs with
  | nil => simp [addToGroups]
  | cons e rest ih =>
    obtain ⟨k', ss⟩ := e
    by_cases hk : k' = k
    · subst hk
      simp [addToGroups]
    · have hk' : ¬(k = k') := fun h => hk h.symm
      by_cases hmem : k ∈ rest.map Prod.fst
      · simp [addToGroups, hk, ih, hmem, hk']
      · simp [addToGroups, hk, ih, hmem, hk']

theorem groupEntries_fold_keys :
    ∀ (sessions : List Session) (gs : List (Str × List Session)),
      (sessions.foldl (fun acc s => addToGroups acc (sessionGroupKey s) s) gs).map
          Prod.fst =
        sessions.foldl
          (fun acc s =>
            if sessionGroupKey s ∈ acc then acc else acc ++ [sessionGroupKey s])
          (gs.map Prod.fst) := by
  intro sessions
  induction sessions with
  | nil => intro gs; rfl
  | cons s rest ih =>
    intro gs
    rw [List.foldl_cons, List.foldl_cons, ih, addToGroups_map_fst]

/-- The keys of the built record are exactly the group keys in first-seen
order. -/
theorem groupEntries_keys (sessions : List Session) :
    (groupEntries sessions).map Prod.fst = firstSeenKeys sessions := by
  simpa using groupEntries_fold_keys sessions []

/-- A session in group `"b"`, encountered first in the counterexample. -/
def cexSessionB : Session := { testSession with group := some "b".data }

/-- A session in group `"1"` — an array-index key, which `Object.entries`
enumerates before `"b"` despite `"b"` being created first. -/
def cexSession1 : Session := { testSession with group := some "1".data }

/-- C2 counterexample: with groups first encountered in the order
`"b", "1"` and equal member counts (a tie), `groupSessions` returns the
groups in the order `"1", "b"` — the array-index key `"1"` is enumerated
first — so equal-count groups do not, in general, appear in
first-encountered order. -/
theorem groupSessions_tie_counterexample :
    (groupSessions [cexSessionB, cexSession1]).map Prod.fst =
      ["1".data, "b".data] ∧
    firstSeenKeys [cexSessionB, cexSession1] = ["b".data, "1".data] ∧
    (groupSessions [cexSessionB, cexSession1]).map (fun p => p.2.length) =
      [1, 1] := by
  decide

/-- C2 (amended): `groupSessions` output is sorted by descending member
count, and groups of any fixed count keep the `Object.entries` enumeration
order of the built record (array-index keys in ascending numeric order
first, then the remaining keys in creation order); the record's creation
order itself is the first-encountered order of the group keys. -/
theorem groupSessions_sorted_desc_enum_stable (sessions : List Session) :
    List.Pairwise (fun a b => b.2.length ≤ a.2.length) (groupSessions sessions) ∧
    (∀ c : Nat,
      (groupSessions sessions).filter (fun p => p.2.length == c) =
        (jsObjectEntries (groupEntries sessions)).filter
          (fun p => p.2.length == c)) ∧
    (groupEntries sessions).map Prod.fst = firstSeenKeys sessions := by
  refine ⟨?_, ?_, groupEntries_keys sessions⟩
  · exact stableSortCmp_pairwise _ (fun a b => b.2.length ≤ a.2.length)
      (fun a b => by rw [sub_nonpos]; exact Nat.cast_le)
      (fun a b => Nat.le_total b.2.length a.2.length)
      (fun a b c h1 h2 => le_trans h2 h1)
      (jsObjectEntries (groupEntries sessions))
  · intro c
    exact stableSortCmp_filter _ _
      (fun x hx y hlt => by
        simp only [beq_iff_eq] at hx
        simp only [beq_eq_false_iff_ne, ne_eq]
        omega)
      (jsObjectEntries (groupEntries sessions))

/-! ## `sortStarredFirst` (helpers.ts lines 126–134) -/

/-- `sortStarredFirst` (helpers.ts lines 126–134): `[...sessions].sort((a, b)
=> (starred.has(b.id) ? 1 : 0) - (starred.has(a.id) ? 1 : 0))` — a stable
sort on a copy of the input; the starred set is modelled by its element
list. -/
def sortStarredFirst (sessions : List Session) (starred : List Str) :
    List Session :=
  stableSortCmp
    (fun a b =>
      (if starred.contains b.id then 1 else 0) -
        (if starred.contains a.id then (1 : Int) else 0))
    sessions

theorem insertCmp_of_le (cmp : α → α → Int) (x : α) (l : List α)
    (h : ∀ y ∈ l, cmp x y ≤ 0) : insertCmp cmp x l = x :: l := by
  cases l with
  | nil => rfl
  | cons y ys =>
    show (if cmp x y ≤ 0 then x :: y :: ys else y :: insertCmp cmp x ys) = _
    rw [if_pos (h y (List.mem_cons_self y ys))]

theorem insertCmp_append_of_gt (cmp : α → α → Int) (x : α) (B : List α) :
    ∀ A : List α, (∀ y ∈ A, ¬cmp x y ≤ 0) →
      insertCmp cmp x (A ++ B) = A ++ insertCmp cmp x B := by
  intro A
  induction A with
  | nil => intro _; rfl
  | cons a as ih =>
    intro h
    show (if cmp x a ≤ 0 then x :: a :: (as ++ B)
          else a :: insertCmp cmp x (as ++ B)) = _
    rw [if_neg (h a (List.mem_cons_self a as)),
      ih (fun y hy => h y (List.mem_cons_of_mem a hy))]
    rfl

theorem starCmp_nonpos_left (starred : List Str) (a b : Session)
    (ha : starred.contains a.id = true) :
    ((if starred.contains b.id then 1 else 0) -
      (if starred.contains a.id then (1 : Int) else 0)) ≤ 0 := by
  rw [ha]
  cases hb : starred.contains b.id <;> norm_num

theorem starCmp_nonpos_right (starred : List Str) (a b : Session)
    (hb : starred.contains b.id = false) :
    ((if starred.contains b.id then 1 else 0) -
      (if starred.contains a.id then (1 : Int) else 0)) ≤ 0 := by
  rw [hb]
  cases ha : starred.contains a.id <;> norm_num

theorem starCmp_pos (starred : List Str) (a b : Session)
    (ha : starred.contains a.id = false) (hb : starred.contains b.id = true) :
    ¬((if starred.contains b.id then 1 else 0) -
        (if starred.contains a.id then (1 : Int) else 0)) ≤ 0 := by
  rw [ha, hb]
  norm_num

/-- C5: `sortStarredFirst` is the stable partition of the input: the starred
sessions, in input order, followed by the non-starred sessions, in input
order (the model is pure, so neither argument is mutated). -/
theorem sortStarredFirst_stable_partition (sessions : List Session)
    (starred : List Str) :
    sortStarredFirst sessions starred =
      sessions.filter (fun s => starred.contains s.id) ++
        sessions.filter (fun s => !starred.contains s.id) := by
  induction sessions with
  | nil => rfl
  | cons s rest ih =>
    show insertCmp
        (fun a b =>
          (if starred.contains b.id then 1 else 0) -
            (if starred.contains a.id then (1 : Int) else 0))
        s (sortStarredFirst rest starred) = _
    rw [ih, List.filter_cons, List.filter_cons]
    cases hs : starred.contains s.id with
    | true =>
      rw [insertCmp_of_le _ s _ (fun y _ => starCmp_nonpos_left starred s y hs)]
      simp
    | false =>
      rw [insertCmp_append_of_gt _ s _ _
          (fun y hy => starCmp_pos starred s y hs (List.mem_filter.mp hy).2),
        insertCmp_of_le _ s _
          (fun y hy => starCmp_nonpos_right starred s y (by
            have h2 := (List.mem_filter.mp hy).2
            simpa using h2))]
      simp

/-! ## `useVersion` (useVersion.ts) -/

/-- One round of `doCheck` (useVersion.ts lines 19–23): the fetch either
resolves with fresh info (`some info`, applied by `setVersionInfo`) or
rejects (`none`, swallowed by `.catch(() => {})`), in which case the state
is left alone. -/
def versionCheckStep (result : Option VersionInfo) (versionInfo : VersionInfo) :
    VersionInfo :=
  match result with
  | some info => info
  | none => versionInfo

/-- C7: a rejected version fetch leaves `versionInfo` unchanged — the
failure is swallowed and no exception escapes the check. -/
theorem versionCheckStep_failure_keeps_state (versionInfo : VersionInfo) :
    versionCheckStep none versionInfo = versionInfo := rfl

/-- The terminal state of the readiness-polling phase of `doUpdate`:
whether `location.reload()` was invoked and the final value of the
`updating` flag. -/
structure UpdateEnd where
  reloaded : Bool
  updating : Bool
  deriving Repr, DecidableEq

/-- The readiness poll of `doUpdate` (useVersion.ts lines 33–49): a
`setInterval` of 2000 ms, so the `i`-th callback (0-based) runs with
`Date.now() - start = 2000 * (i + 1)`.  Each callback first checks
`Date.now() - start > 90000` (stop, `setUpdating(false)`, no reload), then
tries `fetch`; an HTTP-success response (`true` in the trace) clears the
interval and reloads, a network error (`false`) is swallowed and polling
continues.  The trace lists each tick's fetch outcome; `none` means the
trace ended before the loop did. -/
def pollReadiness (i : Nat) : List Bool → Option UpdateEnd
  | [] => none
  | r :: rest =>
    if 90000 < 2000 * (i + 1) then some ⟨false, false⟩
    else if r then some ⟨true, true⟩
    else pollReadiness (i + 1) rest

theorem pollReadiness_all_failures :
    ∀ (rs : List Bool) (i : Nat), (∀ r ∈ rs, r = false) →
      45 - i < rs.length → pollReadiness i rs = some ⟨false, false⟩ := by
  intro rs
  induction rs with
  | nil =>
    intro i _ hlen
    simp at hlen
  | cons r rest ih =>
    intro i hfail hlen
    have hr : r = false := hfail r (List.mem_cons_self r rest)
    show (if 90000 < 2000 * (i + 1) then some ⟨false, false⟩
          else if r then some ⟨true, true⟩
          else pollReadiness (i + 1) rest) = some ⟨false, false⟩
    by_cases hi : 90000 < 2000 * (i + 1)
    · rw [if_pos hi]
    · rw [if_neg hi, hr, if_neg (by decide)]
      refine ih (i + 1) (fun x hx => hfail x (List.mem_cons_of_mem r hx)) ?_
      simp only [List.length_cons] at hlen
      omega

/-- C8: if every readiness fetch in the 90-second window fails (46 ticks of
the 2-second interval, the 46th at 92 s > 90 s), the poll stops with the
`updating` flag cleared and without reloading, and the loop does not
continue past that point. -/
theorem pollReadiness_timeout (rs : List Bool)
    (hfail : ∀ r ∈ rs, r = false) (hlen : 46 ≤ rs.length) :
    pollReadiness 0 rs = some ⟨false, false⟩ :=
  pollReadiness_all_failures rs 0 hfail (by omega)

/-- Witness for C8: 46 consecutive failed readiness fetches end in a
timeout with no reload. -/
theorem pollReadiness_timeout_witness :
    pollReadiness 0 (List.replicate 46 false) = some ⟨false, false⟩ :=
  pollReadiness_timeout (List.replicate 46 false)
    (fun _ hr => List.eq_of_mem_replicate hr) (by simp)

/-! ## `DisconnectOverlay` (DisconnectOverlay.tsx lines 11–33) -/

/-- The fixed "Retrying now…" line. -/
def retryNowText : Str := "Retrying now…".data

/-- The countdown line `↻ Retrying in ${retrySeconds}s…`. -/
def retryCountdownText (retrySeconds : Nat) : Str :=
  "↻ Retrying in ".data ++ (toString retrySeconds).data ++ "s…".data

/-- `DisconnectOverlay` (DisconnectOverlay.tsx lines 11–33), reduced to its
one branch of logic: `null` when not disconnected, otherwise the
disconnect-retry line, which counts down while `retrySeconds > 0` and reads
"Retrying now…" at zero. -/
def disconnectOverlay (disconnected : Bool) (retrySeconds : Nat) : Option Str :=
  if !disconnected then none
  else some (if retrySeconds > 0 then retryCountdownText retrySeconds
    else retryNowText)

theorem retryCountdownText_ne_now (n : Nat) :
    retryCountdownText n ≠ retryNowText := by
  intro h
  have h0 : (retryCountdownText n).head? = retryNowText.head? :=
    congrArg List.head? h
  have h1 : (retryCountdownText n).head? = some '↻' := rfl
  have h2 : retryNowText.head? = some 'R' := rfl
  rw [h1, h2] at h0
  exact absurd (Option.some.inj h0) (by decide)

/-- C9: when not disconnected the overlay renders nothing; when
disconnected, the retry line is "Retrying now…" exactly when the countdown
has reached zero, and the `↻ Retrying in Ns…` countdown when it is
positive. -/
theorem disconnectOverlay_retry_line (n : Nat) :
    disconnectOverlay false n = none ∧
    (disconnectOverlay true n = some retryNowText ↔ n = 0) ∧
    (0 < n → disconnectOverlay true n = some (retryCountdownText n)) := by
  refine ⟨rfl, ?_, ?_⟩
  · cases n with
    | zero => simp [disconnectOverlay]
    | succ m =>
      have hov : disconnectOverlay true (m + 1) =
          some (retryCountdownText (m + 1)) := by
        simp [disconnectOverlay]
      rw [hov]
      simp [retryCountdownText_ne_now (m + 1)]
  · intro hn
    simp [disconnectOverlay, hn]

/-- Witness for C9 at `retrySeconds = 1`. -/
theorem disconnectOverlay_retry_line_witness :
    disconnectOverlay false 1 = none ∧
    (disconnectOverlay true 1 = some retryNowText ↔ 1 = 0) ∧
    disconnectOverlay true 1 = some (retryCountdownText 1) :=
  ⟨(disconnectOverlay_retry_line 1).1, (disconnectOverlay_retry_line 1).2.1,
    (disconnectOverlay_retry_line 1).2.2 (by decide)⟩

/-! ## Substring reasoning for the filter (C6, C10) -/

theorem leadsWith_iff : ∀ (n h : Str), leadsWith n h = true ↔ ∃ post, h = n ++ post := by
  intro n
  induction n with
  | nil =>
    intro h
    simp [leadsWith]
  | cons a n ih =>
    intro h
    cases h with
    | nil =>
      show false = true ↔ _
      simp
    | cons b t =>
      show (a == b && leadsWith n t) = true ↔ _
      rw [Bool.and_eq_true, beq_iff_eq, ih t]
      constructor
      · rintro ⟨rfl, post, rfl⟩
        exact ⟨post, rfl⟩
      · rintro ⟨post, hp⟩
        rw [List.cons_append] at hp
        injection hp with h1 h2
        exact ⟨h1.symm, post, h2⟩

theorem containsSub_iff : ∀ (hay needle : Str),
    containsSub hay needle = true ↔
      ∃ pre post, hay = pre ++ needle ++ post := by
  intro hay
  induction hay with
  | nil =>
    intro needle
    show (leadsWith needle [] || false) = true ↔ _
    rw [Bool.or_false, leadsWith_iff]
    constructor
    · rintro ⟨post, hp⟩
      exact ⟨[], post, by simpa using hp⟩
    · rintro ⟨pre, post, hp⟩
      rcases List.append_eq_nil.mp hp.symm with ⟨h1, h3⟩
      rcases List.append_eq_nil.mp h1 with ⟨-, h5⟩
      exact ⟨post, by simp [h5, h3]⟩
  | cons c t ih =>
    intro needle
    show (leadsWith needle (c :: t) || containsSub t needle) = true ↔ _
    rw [Bool.or_eq_true, leadsWith_iff, ih]
    constructor
    · rintro (⟨post, hp⟩ | ⟨pre, post, hp⟩)
      · exact ⟨[], post, by simpa using hp⟩
      · refine ⟨c :: pre, post, ?_⟩
        rw [hp]
        rfl
    · rintro ⟨pre, post, hp⟩
      cases pre with
      | nil =>
        left
        exact ⟨post, by simpa using hp⟩
      | cons p ps =>
        right
        rw [List.cons_append, List.cons_append] at hp
        injection hp with h1 h2
        exact ⟨ps, post, h2⟩

theorem joinWith_head (sep x : Str) (rest : List Str) :
    ∃ tail, joinWith sep (x :: rest) = x ++ tail := by
  cases rest with
  | nil => exact ⟨[], by simp [joinWith]⟩
  | cons y ys =>
    exact ⟨sep ++ joinWith sep (y :: ys), by simp [joinWith, List.append_assoc]⟩

/-- C6: a session whose `summary` contains a non-empty query as a substring
is kept by `filterSessions` on a singleton list. -/
theorem filterSessions_keeps_summary_match (s : Session) (q sum : Str)
    (hsum : s.summary = some sum) (hq : q ≠ [])
    (hsub : ∃ pre post, sum = pre ++ q ++ post) :
    s ∈ filterSessions [s] q := by
  obtain ⟨pre, post, hps⟩ := hsub
  have hsumne : sum.isEmpty = false := by
    rw [hps]
    cases pre with
    | nil =>
      cases q with
      | nil => exact absurd rfl hq
      | cons a t => rfl
    | cons a t => rfl
  have hfields : (([s.summary, s.repository, s.branch, s.cwd, s.group,
        some s.intent].filterMap id) ++ s.mcp_servers).filter
        (fun f => !f.isEmpty) =
      sum :: ((([s.repository, s.branch, s.cwd, s.group,
        some s.intent].filterMap id) ++ s.mcp_servers).filter
        (fun f => !f.isEmpty)) := by
    rw [hsum]
    show ((sum :: ([s.repository, s.branch, s.cwd, s.group,
        some s.intent].filterMap id)) ++ s.mcp_servers).filter
        (fun f => !f.isEmpty) = _
    rw [List.cons_append, List.filter_cons]
    rw [hsumne]
    simp
  obtain ⟨tail, htail⟩ := joinWith_head [' '] sum
    ((([s.repository, s.branch, s.cwd, s.group,
      some s.intent].filterMap id) ++ s.mcp_servers).filter
      (fun f => !f.isEmpty))
  have hcontains : containsSub (sessionHay s) (q.map Char.toLower) = true := by
    rw [containsSub_iff]
    refine ⟨pre.map Char.toLower,
      post.map Char.toLower ++ tail.map Char.toLower, ?_⟩
    unfold sessionHay
    rw [hfields, htail, hps]
    simp [List.map_append, List.append_assoc]
  have hne : q.isEmpty = false := by
    cases q with
    | nil => exact absurd rfl hq
    | cons a t => rfl
  unfold filterSessions
  rw [hne]
  simp [List.filter_cons, hcontains]

/-- Witness for C6: the factory session's summary "Test session" matched by
the query "Test". -/
theorem filterSessions_keeps_summary_match_witness :
    testSession ∈ filterSessions [testSession] "Test".data :=
  filterSessions_keeps_summary_match testSession "Test".data
    "Test session".data rfl (by decide) ⟨[], " session".data, by decide⟩

/-- A session whose only searchable content is `summary = "abc"` and
`repository = "def"`; every other searched field is null or empty. -/
def crossFieldSession : Session :=
  { testSession with
    id := "x".data
    summary := some "abc".data
    repository := some "def".data
    group := none }

/-- C10: the haystack joins fields with a single space, so the non-empty
query "c d" — a substring of no single searched field (summary "abc",
repository "def", all other fields null or empty) — still matches across
the summary/repository boundary and the session is kept. -/
theorem filterSessions_cross_field_match :
    "c d".data ≠ ([] : Str) ∧
    containsSub ("abc".data.map Char.toLower) ("c d".data.map Char.toLower)
      = false ∧
    containsSub ("def".data.map Char.toLower) ("c d".data.map Char.toLower)
      = false ∧
    crossFieldSession.branch = none ∧
    crossFieldSession.cwd = none ∧
    crossFieldSession.group = none ∧
    crossFieldSession.intent = [] ∧
    crossFieldSession.mcp_servers = [] ∧
    filterSessions [crossFieldSession] "c d".data = [crossFieldSession] := by
  decide
